import Mathlib

/-!
Verification development for the translation-unit session manager of a
libclang-based editor completion plugin (`pythonx/libclang.py`).

The Python source is embedded shallowly:

* `os.path` string operations are modelled at the character level for a
  symlink-free filesystem (see the doc comments on `pjoin`, `normpath`,
  `realpath`);
* the module-level mutable cell `getCompilationDBParams.last_query` becomes
  explicit state passing (the function returns the value handed to the
  caller together with the updated cell);
* the global dict `translationUnits` becomes an association list threaded
  through `getCurrentTranslationUnit`, and the opaque libclang engine
  (`index.parse`, `tu.reparse`, cursor queries) becomes function parameters;
* a caught `TranslationUnitLoadError` becomes a `none` result.
-/

namespace ClangComplete

/-! ### POSIX path model

The resolver calls `os.path.isabs`, `os.path.join`, `os.path.normpath` and
`os.path.realpath`.  They are modelled below on `String` at the character
level, following the `posixpath` implementations. -/

/-- `posixpath.isabs(p)`: `p.startswith('/')`, i.e. the first character,
when there is one, is a slash. -/
def isabs (p : String) : Bool :=
  match p.data with
  | c :: _ => c = '/'
  | [] => false

/-- Helper for `pjoin`: `a.endswith('/')`. -/
def endsWithSlash (a : String) : Bool :=
  match a.data.getLast? with
  | some '/' => true
  | _ => false

/-- `posixpath.join(a, b)` for two components: if `b` is absolute the
result is `b`; otherwise `b` is appended to `a`, inserting a slash unless
`a` is empty or already ends in one. -/
def pjoin (a b : String) : String :=
  if isabs b then b
  else if a = "" ∨ endsWithSlash a then a ++ b
  else a ++ "/" ++ b

/-- `str.split('/')` on the character list: splits at every slash and keeps
empty components (so `"a//b"` gives `["a", "", "b"]`). -/
def splitSlash : List Char → List (List Char)
  | [] => [[]]
  | c :: rest =>
    let r := splitSlash rest
    if c = '/' then [] :: r
    else
      match r with
      | [] => [[c]]
      | h :: t => (c :: h) :: t

/-- One step of `posixpath.normpath`'s component scan: skip `""` and `"."`;
append a component unless it is `".."` that can cancel against a previous
real component; otherwise pop.  `initialSlashes` tells whether the whole
path is absolute (a leading `".."` is dropped on absolute paths). -/
def normStep (initialSlashes : Bool) (acc : List (List Char)) (comp : List Char) :
    List (List Char) :=
  if comp = [] ∨ comp = ['.'] then acc
  else if comp ≠ ['.', '.'] ∨ (initialSlashes = false ∧ acc = []) ∨
      (acc ≠ [] ∧ acc.getLast? = some ['.', '.']) then acc ++ [comp]
  else if acc ≠ [] then acc.dropLast
  else acc

/-- `posixpath.normpath(p)`: collapse repeated slashes, drop `"."`
components, cancel `".."` against preceding components; an empty result
becomes `"."`; one leading slash is kept (two, in the special POSIX
double-slash case). -/
def normpath (p : String) : String :=
  if p = "" then "."
  else
    let d := p.data
    let initialSlashes : Nat :=
      match d with
      | '/' :: '/' :: '/' :: _ => 1
      | '/' :: '/' :: _ => 2
      | '/' :: _ => 1
      | _ => 0
    let comps := splitSlash d
    let newComps := comps.foldl (normStep (decide (initialSlashes ≠ 0))) []
    let res := List.replicate initialSlashes '/' ++ List.intercalate ['/'] newComps
    if res = [] then "." else String.mk res

/-- `os.path.realpath(p)` for a symlink-free filesystem: path
normalisation.  (The real function additionally resolves symlinks and makes
a relative path absolute against the process working directory; the
resolver only applies it to paths joined onto the compilation database's
working directory, which are absolute whenever that directory is.) -/
def realpath (p : String) : String := normpath p

/-- Python slicing `s[n:]`. -/
def strDrop (s : String) (n : Nat) : String := String.mk (s.data.drop n)

/-- `s.startswith(pre)`. -/
def startsWithStr (s pre : String) : Bool := pre.data.isPrefixOf s.data

/-! ### Compilation Database Resolver (`getCompilationDBParams`) -/

/-- The `-I` branch of the argument filter: `includePath = arg[2:]`; if it
is not absolute it is replaced by `normpath(join(cwd, includePath))`; the
emitted token is `'-I' + includePath`. -/
def rewriteInclude (cwd arg : String) : String :=
  let includePath := strDrop arg 2
  let includePath := if isabs includePath then includePath else normpath (pjoin cwd includePath)
  "-I" ++ includePath

/-- The argument-filtering loop of `getCompilationDBParams`, with the
`skip_next` flag explicit.  In order: a skipped token (the compiler
invocation at the start, or the token after `-o`); `-c`; a token equal to
the target file or resolving to it relative to `cwd`; `-o` (which arms
`skip_next`); a `-I` token (rewritten); any other token (kept). -/
def filterArgsAux (fileName cwd : String) : Bool → List String → List String
  | _, [] => []
  | true, _ :: rest => filterArgsAux fileName cwd false rest
  | false, arg :: rest =>
    if arg = "-c" then filterArgsAux fileName cwd false rest
    else if arg = fileName ∨ realpath (pjoin cwd arg) = fileName then
      filterArgsAux fileName cwd false rest
    else if arg = "-o" then filterArgsAux fileName cwd true rest
    else if startsWithStr arg "-I" then
      rewriteInclude cwd arg :: filterArgsAux fileName cwd false rest
    else arg :: filterArgsAux fileName cwd false rest

/-- The full filter applied to a raw compile command: `skip_next` starts
at 1, so the first raw token (the compiler invocation) is dropped. -/
def filterDBArgs (fileName cwd : String) (raw : List String) : List String :=
  filterArgsAux fileName cwd true raw

/-- The `{args, cwd}` map produced by the resolver.  `cwd` is `none` in the
initial fallback value (Python `None`). -/
structure CompileParams where
  args : List String
  cwd : Option String
deriving DecidableEq, Repr

/-- `getCompilationDBParams.last_query`'s initial value:
`{args: [], cwd: None}`. -/
def initialLastQuery : CompileParams := ⟨[], none⟩

/-- `getCompilationDBParams(fileName)`.  `db` abstracts the configured
compilation database: `db f` is the first compile command (raw argument
list and working directory) for `f`, or `none` when there is no database
or no entry.  `lastQuery` is the current content of the module-level cell
`getCompilationDBParams.last_query`; the result is the pair
(value returned to the caller, new content of the cell).  On a hit the
filtered entry both is stored and is returned; on a miss the stored
fallback is returned and the cell is unchanged. -/
def getCompilationDBParams (db : String → Option (List String × String))
    (lastQuery : CompileParams) (fileName : String) : CompileParams × CompileParams :=
  match db fileName with
  | some (raw, cwd) =>
    let q : CompileParams := ⟨filterDBArgs fileName cwd raw, some cwd⟩
    (q, q)
  | none => (lastQuery, lastQuery)

/-! ### Heap view of the resolver, for the aliasing claim

In Python `getCompilationDBParams` stores a list object in the module-level
cell and hands the caller `list(query['args'])` — a fresh list.  To state
that the returned list never aliases the cell's list, the lists are placed
in an explicit store of numbered cells. -/

/-- A store of list-valued heap cells; addresses below `next` are
allocated. -/
structure Store where
  mem : Nat → List String
  next : Nat

/-- Allocate a fresh cell holding `v` (models building a new Python
list). -/
def Store.alloc (σ : Store) (v : List String) : Nat × Store :=
  (σ.next, ⟨fun a => if a = σ.next then v else σ.mem a, σ.next + 1⟩)

/-- Overwrite the list held at address `a` (models mutating a Python list
in place). -/
def Store.write (σ : Store) (a : Nat) (v : List String) : Store :=
  ⟨fun b => if b = a then v else σ.mem b, σ.next⟩

/-- `last_query` as stored on the heap: an address for the `args` list,
plus the (immutable) working directory. -/
structure QueryRef where
  argsRef : Nat
  cwd : Option String

/-- `getCompilationDBParams`, heap view.  On a database hit the filtered
argument list is a freshly built list which becomes the new `last_query`;
either way the caller receives `list(query['args'])`: a second fresh list
copied from the cell `query` points at.  Returns
(value handed to the caller, new `last_query`, new store). -/
def getCompilationDBParamsAlloc (db : String → Option (List String × String))
    (σ : Store) (lastQuery : QueryRef) (fileName : String) :
    QueryRef × QueryRef × Store :=
  match db fileName with
  | some (raw, cwd) =>
    let p := σ.alloc (filterDBArgs fileName cwd raw)
    let lastQuery2 : QueryRef := ⟨p.1, some cwd⟩
    let p2 := p.2.alloc (p.2.mem p.1)
    (⟨p2.1, lastQuery2.cwd⟩, lastQuery2, p2.2)
  | none =>
    let p2 := σ.alloc (σ.mem lastQuery.argsRef)
    (⟨p2.1, lastQuery.cwd⟩, lastQuery, p2.2)

/-! ### Session cache (`getCurrentTranslationUnit`)

The global dict `translationUnits` is an association list; the engine
operations `index.parse` (which may raise `TranslationUnitLoadError`,
modelled as `none`) and `tu.reparse` are function parameters.  The result
records how many parses and reparses the call performed, so that
"no re-invocation of the parser" is a provable statement. -/

/-- `translationUnits.get(fileName)`. -/
def dictGet {TU : Type} (units : List (String × TU)) (k : String) : Option TU :=
  match units with
  | [] => none
  | (k2, v) :: rest => if k2 = k then some v else dictGet rest k

/-- `translationUnits[fileName] = tu` (replace or add). -/
def dictSet {TU : Type} (units : List (String × TU)) (k : String) (v : TU) :
    List (String × TU) :=
  match units with
  | [] => [(k, v)]
  | (k2, v2) :: rest => if k2 = k then (k, v) :: rest else (k2, v2) :: dictSet rest k v

/-- Outcome of one `getCurrentTranslationUnit` call: the returned handle
(`none` = parse failure), the dict afterwards, and how many times
`index.parse` and `tu.reparse` ran. -/
structure TUOutcome (TU : Type) where
  tu : Option TU
  units : List (String × TU)
  parses : Nat
  reparses : Nat
deriving DecidableEq, Repr

/-- `getCurrentTranslationUnit(args, currentFile, fileName, update)`.
A cached unit is returned as is when `update` is false, and reparsed (in
place — the dict entry is the same mutated object) when `update` is true.
On a miss, `index.parse` runs; a load error returns `none` and leaves the
dict untouched; on success the unit is stored and immediately reparsed
once to populate the precompiled-preamble cache. -/
def getCurrentTranslationUnit {TU : Type}
    (parse : List String → String × String → String → Option TU)
    (reparse : TU → String × String → TU)
    (units : List (String × TU)) (args : List String)
    (currentFile : String × String) (fileName : String) (update : Bool) :
    TUOutcome TU :=
  match dictGet units fileName with
  | some tu =>
    if update then
      let tu2 := reparse tu currentFile
      ⟨some tu2, dictSet units fileName tu2, 0, 1⟩
    else ⟨some tu, units, 0, 0⟩
  | none =>
    match parse args currentFile fileName with
    | none => ⟨none, units, 1, 0⟩
    | some tu =>
      let units2 := dictSet units fileName tu
      let tu2 := reparse tu currentFile
      ⟨some tu2, dictSet units2 fileName tu2, 1, 1⟩

/-! ### Diagnostic extractor (`getQuickFix`, `getQuickFixList`) -/

/-- One engine diagnostic.  `severity` carries libclang's numeric severity
(`Ignored = 0`, `Note = 1`, `Warning = 2`, `Error = 3`, `Fatal = 4`; any
other value is possible at the boundary).  `file` is `none` for synthetic
diagnostics with no source file. -/
structure Diagnostic where
  severity : Nat
  file : Option String
  line : Nat
  column : Nat
  spelling : String
deriving DecidableEq, Repr

/-- libclang severity constants. -/
def sevIgnored : Nat := 0

/-- libclang severity `Note`. -/
def sevNote : Nat := 1

/-- libclang severity `Warning`. -/
def sevWarning : Nat := 2

/-- libclang severity `Error`. -/
def sevError : Nat := 3

/-- libclang severity `Fatal`. -/
def sevFatal : Nat := 4

/-- `needle in haystack` on character lists (Python `in` on strings):
some contiguous run of `haystack` equals `needle`. -/
def containsSub (needle : List Char) : List Char → Bool
  | [] => needle.isPrefixOf []
  | c :: rest => needle.isPrefixOf (c :: rest) || containsSub needle rest

/-- Python `needle in haystack` for strings. -/
def strContains (haystack needle : String) : Bool :=
  containsSub needle.data haystack.data

/-- The message substring whose presence drops a warning. -/
def argumentUnusedNoise : String := "argument unused during compilation"

/-- The quickfix record built from one diagnostic.  The Python record's
`bufnr` is the editor buffer number obtained from `filename`; the model
keeps the `filename` string itself (the editor lookup is external I/O). -/
structure QuickFixEntry where
  filename : String
  lnum : Nat
  col : Nat
  text : String
  type : String
deriving DecidableEq, Repr

/-- `getQuickFix(diagnostic)`: severity dispatch exactly as in the source;
`none` both for the suppressed "argument unused during compilation"
warnings and for unknown severities.  A diagnostic with no source file
gets `filename = ""`. -/
def getQuickFix (d : Diagnostic) : Option QuickFixEntry :=
  let filename := match d.file with
    | some f => f
    | none => ""
  if d.severity = sevIgnored then some ⟨filename, d.line, d.column, d.spelling, "I"⟩
  else if d.severity = sevNote then some ⟨filename, d.line, d.column, d.spelling, "I"⟩
  else if d.severity = sevWarning then
    if strContains d.spelling argumentUnusedNoise then none
    else some ⟨filename, d.line, d.column, d.spelling, "W"⟩
  else if d.severity = sevError then some ⟨filename, d.line, d.column, d.spelling, "E"⟩
  else if d.severity = sevFatal then some ⟨filename, d.line, d.column, d.spelling, "E"⟩
  else none

/-- `getQuickFixList(tu)`: `[_f for _f in map(getQuickFix, tu.diagnostics)
if _f]`. -/
def getQuickFixList (diags : List Diagnostic) : List QuickFixEntry :=
  diags.filterMap getQuickFix

/-! ### Completion formatter (`formatResult`, `roll_out_optional`)

A completion chunk carries its kind, its spelling, and — for optional
chunks — the nested chunk sequence (`chunk.string`). -/

/-- One completion chunk.  The kinds the source dispatches on are explicit
constructors; every further kind is `other`. -/
inductive Chunk where
  | informative (spelling : String)
  | resultType (spelling : String)
  | typedText (spelling : String)
  | placeHolder (spelling : String)
  | optional (spelling : String) (children : List Chunk)
  | other (spelling : String)

/-- `chunk.spelling`. -/
def Chunk.spelling : Chunk → String
  | .informative s => s
  | .resultType s => s
  | .typedText s => s
  | .placeHolder s => s
  | .optional s _ => s
  | .other s => s

/-- `chunk.isKindInformative()`. -/
def Chunk.isKindInformative : Chunk → Bool
  | .informative _ => true
  | _ => false

/-- `chunk.isKindResultType()`. -/
def Chunk.isKindResultType : Chunk → Bool
  | .resultType _ => true
  | _ => false

/-- `chunk.isKindTypedText()`. -/
def Chunk.isKindTypedText : Chunk → Bool
  | .typedText _ => true
  | _ => false

/-- `chunk.isKindPlaceHolder()`. -/
def Chunk.isKindPlaceHolder : Chunk → Bool
  | .placeHolder _ => true
  | _ => false

/-- `chunk.isKindOptional()`. -/
def Chunk.isKindOptional : Chunk → Bool
  | .optional _ _ => true
  | _ => false

/-- `chunk.string` for an optional chunk (the nested chunk sequence);
empty for every other kind, which never reads it. -/
def Chunk.optChildren : Chunk → List Chunk
  | .optional _ children => children
  | _ => []

mutual

/-- `roll_out_optional`'s loop, with the two accumulators explicit:
`word` is the running concatenation of spellings, `acc` the list of
strings produced by recursion into nested optional chunks.  Informative,
result-type and typed-text chunks are skipped; every other chunk appends
its spelling to `word`; an optional chunk additionally appends the
recursive roll-out of its children to `acc`. -/
def rollOutAux : String → List String → List Chunk → String × List String
  | word, acc, [] => (word, acc)
  | word, acc, c :: rest =>
    match c with
    | .informative _ => rollOutAux word acc rest
    | .resultType _ => rollOutAux word acc rest
    | .typedText _ => rollOutAux word acc rest
    | .optional s children =>
      rollOutAux (word ++ s) (acc ++ rollOutOptional children) rest
    | .placeHolder s => rollOutAux (word ++ s) acc rest
    | .other s => rollOutAux (word ++ s) acc rest

/-- `roll_out_optional(chunks)`: `[word] + result` with the final
accumulated word in front.  Total by structural descent into the chunk
tree — this is the termination argument for the acyclic chunk structure. -/
def rollOutOptional (chunks : List Chunk) : List String :=
  let p := rollOutAux "" [] chunks
  p.1 :: p.2

end

/-- Which sub-chunks `roll_out_optional` lets contribute to the running
word: everything except informative, result-type and typed-text chunks
(those three hit the loop's `continue`).  Spec-side description used to
characterise the flattening. -/
def keepInRollOut (c : Chunk) : Bool :=
  !(c.isKindInformative || c.isKindResultType || c.isKindTypedText)

/-- The mutable locals of `formatResult`'s main loop. -/
structure FormatState where
  returnValue : Option String
  abbr : String
  word : String
  info : String
deriving DecidableEq, Repr

/-- One iteration of `formatResult`'s main loop.  Informative chunks are
skipped; the result-type chunk is remembered; a typed-text chunk sets
`abbr` (and, not being a placeholder, also extends `word`); an optional
chunk appends every rolled-out string plus `"=?"` to `info`
(`place_markers_for_optional_args` is 0, so `word` is untouched by the
roll-out); a placeholder leaves `word` alone; every non-placeholder chunk
appends its spelling to `word`; every chunk that reaches the bottom of the
loop appends its spelling to `info`. -/
def formatStep (st : FormatState) (c : Chunk) : FormatState :=
  match c with
  | .informative _ => st
  | .resultType s => { st with returnValue := some s }
  | _ =>
    let sp := c.spelling
    let st := if c.isKindTypedText then { st with abbr := sp } else st
    let st :=
      if c.isKindOptional then
        { st with
          info := st.info ++ String.join ((rollOutOptional c.optChildren).map
            (fun a => a ++ "=?")) }
      else st
    let st := if c.isKindPlaceHolder then st else { st with word := st.word ++ sp }
    { st with info := st.info ++ sp }

/-- One raw completion result: `result.string` (the chunk sequence) and
`result.cursorKind` (the numeric declaration-kind tag). -/
structure RawResult where
  string : List Chunk
  cursorKind : Nat

/-- The completion record handed to the editor.  `dup` is the source's
literal `1`. -/
structure CompletionItem where
  word : String
  abbr : String
  menu : String
  info : String
  kind : String
  dup : Bool
deriving DecidableEq, Repr

/-- `formatResult(result)`.  `kindsMap` abstracts the `kinds` lookup table
imported from the plugin's `kinds` module (a fixed dict from cursor-kind
numbers to one-string labels; the module itself is outside this file's
source).  The final record takes `word` and `abbr` both from the
typed-text `abbr` accumulator, and `menu` is `info` with the result-type
spelling and a space in front when a result-type chunk occurred. -/
def formatResult (kindsMap : Nat → String) (r : RawResult) : CompletionItem :=
  let st := r.string.foldl formatStep ⟨none, "", "", ""⟩
  let menu :=
    match st.returnValue with
    | some rv => rv ++ " " ++ st.info
    | none => st.info
  ⟨st.abbr, st.abbr, menu, st.info, kindsMap r.cursorKind, true⟩

/-! ### Declaration resolver (`gotoDeclaration`) -/

/-- A source location as compared by `gotoDeclaration`: the file (possibly
none), line and column. -/
structure Location where
  file : Option String
  line : Nat
  column : Nat
deriving DecidableEq, Repr

/-- The candidate scan of `gotoDeclaration`'s loop over
`[cursor.get_definition(), cursor.referenced]`: the first candidate that
is not `None` and whose location differs from the query location; `none`
when no candidate qualifies. -/
def firstQualifying (queryLoc : Location) : List (Option Location) → Option Location
  | [] => none
  | none :: rest => firstQualifying queryLoc rest
  | some l :: rest => if l = queryLoc then firstQualifying queryLoc rest else some l

/-- The location-selection core of `gotoDeclaration`: resolve the engine
location at `(line, col + 1)`, obtain the cursor there, and scan the two
candidates.  `locate` abstracts `SourceLocation.from_position` (for the
current file), and `getDef`/`getRef` abstract
`Cursor.from_location(...).get_definition()` and `.referenced`, each as
the candidate's location (`none` for a null cursor). -/
def gotoDeclarationTarget (locate : Nat → Nat → Location)
    (getDef getRef : Location → Option Location) (line col : Nat) : Option Location :=
  let loc := locate line (col + 1)
  firstQualifying loc [getDef loc, getRef loc]

/-! ## Theorems -/

/-- C2: for a file path with no entry in the compilation database,
resolution returns the stored fallback (the most recently successfully
resolved `{args, cwd}` pair) and leaves it unchanged; the fallback starts
as empty arguments with an unset working directory; and it is updated
(to the filtered entry) exactly on a successful lookup. -/
theorem getCompilationDBParams_fallback
    (db : String → Option (List String × String)) (lastQuery : CompileParams)
    (fileName : String) (h : db fileName = none) :
    getCompilationDBParams db lastQuery fileName = (lastQuery, lastQuery) ∧
    initialLastQuery = ⟨[], none⟩ ∧
    (∀ (db2 : String → Option (List String × String)) (lq2 : CompileParams)
      (f cwd : String) (raw : List String), db2 f = some (raw, cwd) →
      (getCompilationDBParams db2 lq2 f).2 = ⟨filterDBArgs f cwd raw, some cwd⟩) := by
  refine ⟨by simp [getCompilationDBParams, h], rfl, ?_⟩
  intro db2 lq2 f cwd raw h2
  simp [getCompilationDBParams, h2]

/-- Witness for C2 at a database with no entries and a previously stored
fallback: the fallback is returned and kept. -/
theorem getCompilationDBParams_fallback_witness :
    getCompilationDBParams (fun _ => none) ⟨["-DX"], some "/proj"⟩ "/proj/a.h" =
      (⟨["-DX"], some "/proj"⟩, ⟨["-DX"], some "/proj"⟩) :=
  (getCompilationDBParams_fallback (fun _ => none) ⟨["-DX"], some "/proj"⟩
    "/proj/a.h" rfl).1

/-- C3: a call for a file path with no cached translation unit whose
initial parse fails (a caught `TranslationUnitLoadError`, modelled as
`parse` returning `none`) returns `none` rather than raising, and leaves
the path-to-translation-unit mapping exactly as it was: no cache entry is
created. -/
theorem getCurrentTranslationUnit_parse_failure {TU : Type}
    (parse : List String → String × String → String → Option TU)
    (reparse : TU → String × String → TU)
    (units : List (String × TU)) (args : List String)
    (currentFile : String × String) (fileName : String) (update : Bool)
    (hmiss : dictGet units fileName = none)
    (hfail : parse args currentFile fileName = none) :
    getCurrentTranslationUnit parse reparse units args currentFile fileName update =
      ⟨none, units, 1, 0⟩ := by
  simp [getCurrentTranslationUnit, hmiss, hfail]

/-- Witness for C3 on an empty cache with an always-failing parser. -/
theorem getCurrentTranslationUnit_parse_failure_witness :
    getCurrentTranslationUnit (fun _ _ _ => (none : Option Nat)) (fun tu _ => tu)
      ([] : List (String × Nat)) ["-x", "c"] ("/proj/main.c", "int x;")
      "/proj/main.c" false = ⟨none, [], 1, 0⟩ :=
  getCurrentTranslationUnit_parse_failure (fun _ _ _ => (none : Option Nat))
    (fun tu _ => tu) ([] : List (String × Nat)) ["-x", "c"]
    ("/proj/main.c", "int x;") "/proj/main.c" false rfl rfl

/-- C4: for a file path with a cached translation unit, a call with
`update = false` returns exactly the cached handle, leaves the mapping
untouched, and performs neither a parse nor a reparse; consequently a
second such call returns the same handle and again performs no parse. -/
theorem getCurrentTranslationUnit_cache_hit {TU : Type}
    (parse : List String → String × String → String → Option TU)
    (reparse : TU → String × String → TU)
    (units : List (String × TU)) (args : List String)
    (currentFile : String × String) (fileName : String) (tu : TU)
    (hhit : dictGet units fileName = some tu) :
    getCurrentTranslationUnit parse reparse units args currentFile fileName false =
      ⟨some tu, units, 0, 0⟩ ∧
    getCurrentTranslationUnit parse reparse
        (getCurrentTranslationUnit parse reparse units args currentFile fileName
          false).units args currentFile fileName false =
      ⟨some tu, units, 0, 0⟩ := by
  have h1 : getCurrentTranslationUnit parse reparse units args currentFile fileName
      false = ⟨some tu, units, 0, 0⟩ := by
    simp [getCurrentTranslationUnit, hhit]
  exact ⟨h1, by rw [h1]; exact h1⟩

/-- Witness for C4 on a one-entry cache. -/
theorem getCurrentTranslationUnit_cache_hit_witness :
    getCurrentTranslationUnit (fun _ _ _ => some 99) (fun tu _ => tu + 1)
      [("/proj/main.c", (7 : Nat))] [] ("/proj/main.c", "int x;")
      "/proj/main.c" false = ⟨some 7, [("/proj/main.c", 7)], 0, 0⟩ :=
  (getCurrentTranslationUnit_cache_hit (fun _ _ _ => some 99) (fun tu _ => tu + 1)
    [("/proj/main.c", (7 : Nat))] [] ("/proj/main.c", "int x;")
    "/proj/main.c" 7 rfl).1

/-- C9: the `CompileParams` value handed to the caller never aliases the
stored fallback's list: the returned address differs from the fallback's
address, holds equal contents (a copy), overwriting the returned list
leaves the fallback's list untouched, and a later resolution for a file
without a database entry — made after such an overwrite — still reads the
unchanged fallback contents. -/
theorem getCompilationDBParamsAlloc_no_alias
    (db : String → Option (List String × String)) (σ : Store) (lastQuery : QueryRef)
    (fileName : String) (ret last2 : QueryRef) (σ2 : Store)
    (hvalid : lastQuery.argsRef < σ.next)
    (heq : getCompilationDBParamsAlloc db σ lastQuery fileName = (ret, last2, σ2)) :
    ret.argsRef ≠ last2.argsRef ∧
    σ2.mem ret.argsRef = σ2.mem last2.argsRef ∧
    (∀ v : List String,
      (σ2.write ret.argsRef v).mem last2.argsRef = σ2.mem last2.argsRef) ∧
    (∀ (v : List String) (g : String) (ret2 last3 : QueryRef) (σ3 : Store),
      db g = none →
      getCompilationDBParamsAlloc db (σ2.write ret.argsRef v) last2 g =
        (ret2, last3, σ3) →
      σ3.mem ret2.argsRef = σ2.mem last2.argsRef) := by
  cases hdb : db fileName with
  | none =>
    rw [getCompilationDBParamsAlloc, hdb] at heq
    simp only [Store.alloc] at heq
    rw [Prod.mk.injEq, Prod.mk.injEq] at heq
    obtain ⟨h1, h2, h3⟩ := heq
    subst h1 h2 h3
    have hne : lastQuery.argsRef ≠ σ.next := Nat.ne_of_lt hvalid
    refine ⟨by simpa using (Nat.ne_of_lt hvalid).symm, ?_, ?_, ?_⟩
    · simp [hne]
    · intro v
      simp [Store.write, hne]
    · intro v g ret2 last3 σ3 hg heq2
      rw [getCompilationDBParamsAlloc, hg] at heq2
      simp only [Store.alloc, Store.write] at heq2
      rw [Prod.mk.injEq, Prod.mk.injEq] at heq2
      obtain ⟨e1, e2, e3⟩ := heq2
      subst e1 e2 e3
      simp [hne]
  | some entry =>
    obtain ⟨raw, cwd⟩ := entry
    rw [getCompilationDBParamsAlloc, hdb] at heq
    simp only [Store.alloc] at heq
    rw [Prod.mk.injEq, Prod.mk.injEq] at heq
    obtain ⟨h1, h2, h3⟩ := heq
    subst h1 h2 h3
    refine ⟨by simp, ?_, ?_, ?_⟩
    · simp
    · intro v
      simp [Store.write]
    · intro v g ret2 last3 σ3 hg heq2
      rw [getCompilationDBParamsAlloc, hg] at heq2
      simp only [Store.alloc, Store.write] at heq2
      rw [Prod.mk.injEq, Prod.mk.injEq] at heq2
      obtain ⟨e1, e2, e3⟩ := heq2
      subst e1 e2 e3
      simp

/-- Witness for C9: a miss on a one-cell store; the returned copy lives at
a fresh address distinct from the fallback's cell. -/
theorem getCompilationDBParamsAlloc_no_alias_witness :
    (getCompilationDBParamsAlloc (fun _ => none) ⟨fun _ => ["-DX"], 1⟩ ⟨0, none⟩
        "/proj/a.h").1.argsRef ≠
      (getCompilationDBParamsAlloc (fun _ => none) ⟨fun _ => ["-DX"], 1⟩ ⟨0, none⟩
        "/proj/a.h").2.1.argsRef :=
  (getCompilationDBParamsAlloc_no_alias (fun _ => none) ⟨fun _ => ["-DX"], 1⟩
    ⟨0, none⟩ "/proj/a.h" _ _ _ (by decide) rfl).1

/-- C5: the diagnostic extraction maps Ignored and Note to type `I`,
Warning to `W` except that a warning whose message contains
"argument unused during compilation" is dropped, Error and Fatal to `E`,
and drops every other severity value; a diagnostic without a source file
gets an empty file path; and extraction over a diagnostic sequence is an
append homomorphism (so the surviving entries keep the engine-reported
order). -/
theorem getQuickFix_severity_mapping :
    (∀ d : Diagnostic, d.severity = sevIgnored ∨ d.severity = sevNote →
      getQuickFix d = some ⟨d.file.getD "", d.line, d.column, d.spelling, "I"⟩) ∧
    (∀ d : Diagnostic, d.severity = sevWarning →
      strContains d.spelling argumentUnusedNoise = true → getQuickFix d = none) ∧
    (∀ d : Diagnostic, d.severity = sevWarning →
      strContains d.spelling argumentUnusedNoise = false →
      getQuickFix d = some ⟨d.file.getD "", d.line, d.column, d.spelling, "W"⟩) ∧
    (∀ d : Diagnostic, d.severity = sevError ∨ d.severity = sevFatal →
      getQuickFix d = some ⟨d.file.getD "", d.line, d.column, d.spelling, "E"⟩) ∧
    (∀ d : Diagnostic, 5 ≤ d.severity → getQuickFix d = none) ∧
    (∀ (d : Diagnostic) (e : QuickFixEntry), d.file = none → getQuickFix d = some e →
      e.filename = "") ∧
    (∀ l1 l2 : List Diagnostic,
      getQuickFixList (l1 ++ l2) = getQuickFixList l1 ++ getQuickFixList l2) := by
  have hfile : ∀ d : Diagnostic,
      (match d.file with | some f => f | none => "") = d.file.getD "" := by
    intro d
    cases d.file <;> rfl
  refine ⟨?_, ?_, ?_, ?_, ?_, ?_, ?_⟩
  · rintro d (h | h) <;> simp [getQuickFix, h, sevIgnored, sevNote, hfile d]
  · intro d h hnoise
    simp [getQuickFix, h, sevIgnored, sevNote, sevWarning, hnoise]
  · intro d h hnoise
    simp [getQuickFix, h, sevIgnored, sevNote, sevWarning, hnoise, hfile d]
  · rintro d (h | h) <;>
      simp [getQuickFix, h, sevIgnored, sevNote, sevWarning, sevError, sevFatal, hfile d]
  · intro d h
    rw [getQuickFix]
    rw [if_neg (by simp [sevIgnored]; omega), if_neg (by simp [sevNote]; omega),
      if_neg (by simp [sevWarning]; omega), if_neg (by simp [sevError]; omega),
      if_neg (by simp [sevFatal]; omega)]
  · intro d e hnone h
    rw [getQuickFix, hnone] at h
    split_ifs at h <;>
      first
        | exact Option.noConfusion h
        | · have h2 := Option.some.inj h
            subst h2
            rfl
  · intro l1 l2
    simp [getQuickFixList]

/-- Witness for C5: an Ignored diagnostic without a file maps to `I` with
an empty file path, and a warning carrying the benign message is
dropped. -/
theorem getQuickFix_severity_mapping_witness :
    getQuickFix ⟨0, none, 3, 4, "msg"⟩ = some ⟨"", 3, 4, "msg", "I"⟩ ∧
    getQuickFix ⟨2, some "/proj/main.c", 1, 1,
      "warning: argument unused during compilation: -I."⟩ = none :=
  ⟨getQuickFix_severity_mapping.1 ⟨0, none, 3, 4, "msg"⟩ (Or.inl rfl),
   getQuickFix_severity_mapping.2.1 ⟨2, some "/proj/main.c", 1, 1,
     "warning: argument unused during compilation: -I."⟩ rfl (by decide)⟩

/-- C8: declaration resolution queries the engine location at
`(line, col + 1)` and scans the candidate list
`[definition, referenced]` in that order: the result is the first
candidate that is non-null and located away from the query location; when
the definition qualifies its location is returned; when it does not (null
or at the query location) a qualifying referenced declaration is
returned; and when both candidates are null or at the query location the
result is `none` (no jump). -/
theorem gotoDeclarationTarget_spec (locate : Nat → Nat → Location)
    (getDef getRef : Location → Option Location) (line col : Nat) :
    gotoDeclarationTarget locate getDef getRef line col =
      firstQualifying (locate line (col + 1))
        [getDef (locate line (col + 1)), getRef (locate line (col + 1))] ∧
    (∀ l : Location, getDef (locate line (col + 1)) = some l →
      l ≠ locate line (col + 1) →
      gotoDeclarationTarget locate getDef getRef line col = some l) ∧
    (∀ l : Location,
      (getDef (locate line (col + 1)) = none ∨
        getDef (locate line (col + 1)) = some (locate line (col + 1))) →
      getRef (locate line (col + 1)) = some l → l ≠ locate line (col + 1) →
      gotoDeclarationTarget locate getDef getRef line col = some l) ∧
    ((getDef (locate line (col + 1)) = none ∨
        getDef (locate line (col + 1)) = some (locate line (col + 1))) →
      (getRef (locate line (col + 1)) = none ∨
        getRef (locate line (col + 1)) = some (locate line (col + 1))) →
      gotoDeclarationTarget locate getDef getRef line col = none) := by
  refine ⟨rfl, ?_, ?_, ?_⟩
  · intro l hdef hne
    simp [gotoDeclarationTarget, firstQualifying, hdef, hne]
  · rintro l (hdef | hdef) href hne <;>
      simp [gotoDeclarationTarget, firstQualifying, hdef, href, hne]
  · rintro (hdef | hdef) (href | href) <;>
      simp [gotoDeclarationTarget, firstQualifying, hdef, href]

/-- Witness for C8: with the definition cursor at the query location and a
null referenced cursor, resolution yields no jump target. -/
theorem gotoDeclarationTarget_spec_witness :
    gotoDeclarationTarget (fun a b => ⟨some "/proj/main.c", a, b⟩)
      (fun l => some l) (fun _ => none) 10 4 = none :=
  (gotoDeclarationTarget_spec (fun a b => ⟨some "/proj/main.c", a, b⟩)
    (fun l => some l) (fun _ => none) 10 4).2.2.2 (Or.inr rfl) (Or.inl rfl)

/-- Each loop iteration touches `abbr` only for a typed-text chunk, where
it overwrites it with the chunk's spelling. -/
theorem formatStep_abbr (st : FormatState) (c : Chunk) :
    (formatStep st c).abbr = if c.isKindTypedText then c.spelling else st.abbr := by
  cases c <;> rfl

/-- After folding the main loop, `abbr` is the spelling of the last
typed-text chunk, or the initial value when there is none. -/
theorem foldl_formatStep_abbr (l : List Chunk) :
    ∀ st : FormatState, (l.foldl formatStep st).abbr =
      ((l.filter Chunk.isKindTypedText).getLast?.map Chunk.spelling).getD st.abbr := by
  induction l with
  | nil => intro st; rfl
  | cons c l ih =>
    intro st
    rw [List.foldl_cons, ih]
    by_cases hc : c.isKindTypedText
    · rw [List.filter_cons_of_pos hc]
      cases hf : l.filter Chunk.isKindTypedText with
      | nil => simp [formatStep_abbr, hc]
      | cons d ds =>
        rw [List.getLast?_cons_cons]
        obtain ⟨x, hx⟩ := Option.isSome_iff_exists.mp
          (List.getLast?_isSome.mpr (List.cons_ne_nil d ds))
        rw [hx]
        rfl
    · rw [List.filter_cons_of_neg (by simpa using hc)]
      simp [formatStep_abbr, hc]

/-- The roll-out loop with explicit accumulators: the word component folds
the spellings of the contributing chunks onto the incoming word, and the
list component appends, in order, the recursive roll-out of each optional
chunk's children. -/
theorem rollOutAux_spec (l : List Chunk) : ∀ (word : String) (acc : List String),
    rollOutAux word acc l =
      ((l.filter keepInRollOut).foldl (fun w c => w ++ c.spelling) word,
       acc ++ ((l.filter Chunk.isKindOptional).map
         (fun c => rollOutOptional c.optChildren)).flatten) := by
  induction l with
  | nil => intro word acc; simp [rollOutAux]
  | cons c l ih =>
    intro word acc
    cases c with
    | informative s =>
      simpa [rollOutAux, keepInRollOut, Chunk.isKindInformative,
        Chunk.isKindResultType, Chunk.isKindTypedText, Chunk.isKindOptional] using ih word acc
    | resultType s =>
      simpa [rollOutAux, keepInRollOut, Chunk.isKindInformative,
        Chunk.isKindResultType, Chunk.isKindTypedText, Chunk.isKindOptional] using ih word acc
    | typedText s =>
      simpa [rollOutAux, keepInRollOut, Chunk.isKindInformative,
        Chunk.isKindResultType, Chunk.isKindTypedText, Chunk.isKindOptional] using ih word acc
    | placeHolder s =>
      simpa [rollOutAux, keepInRollOut, Chunk.isKindInformative,
        Chunk.isKindResultType, Chunk.isKindTypedText, Chunk.isKindOptional,
        Chunk.spelling] using ih (word ++ s) acc
    | other s =>
      simpa [rollOutAux, keepInRollOut, Chunk.isKindInformative,
        Chunk.isKindResultType, Chunk.isKindTypedText, Chunk.isKindOptional,
        Chunk.spelling] using ih (word ++ s) acc
    | optional s children =>
      show rollOutAux word acc (Chunk.optional s children :: l) = _
      simp only [rollOutAux]
      rw [ih (word ++ s) (acc ++ rollOutOptional children)]
      simp [keepInRollOut, Chunk.isKindInformative, Chunk.isKindResultType,
        Chunk.isKindTypedText, Chunk.isKindOptional, Chunk.spelling,
        Chunk.optChildren, List.filter_cons]

/-- Unfolding lemma for the well-founded definition of
`roll_out_optional`. -/
theorem rollOutOptional_eq (chunks : List Chunk) :
    rollOutOptional chunks =
      (rollOutAux "" [] chunks).1 :: (rollOutAux "" [] chunks).2 := by
  simp only [rollOutOptional]

/-- The roll-out of the single nested sequence used by the C6 example. -/
theorem rollOutOptional_single_placeholder :
    rollOutOptional [Chunk.placeHolder "y"] = ["y"] := by
  rw [rollOutOptional_eq, rollOutAux_spec]
  rfl

/-- C6: for every raw completion result the final record has
`word = abbr` and `dup = true`; when the result has exactly one typed-text
chunk, `word` and `abbr` are that chunk's spelling; and the concrete
result [typed-text "foo", placeholder "x", optional wrapping the single
chunk "y"] yields `word = abbr = "foo"` with `info` containing "x" and
containing "y=?". -/
theorem formatResult_record (kindsMap : Nat → String) (r : RawResult) :
    (formatResult kindsMap r).word = (formatResult kindsMap r).abbr ∧
    (formatResult kindsMap r).dup = true ∧
    (∀ s : String, r.string.filter Chunk.isKindTypedText = [Chunk.typedText s] →
      (formatResult kindsMap r).abbr = s ∧ (formatResult kindsMap r).word = s) ∧
    (formatResult kindsMap ⟨[Chunk.typedText "foo", Chunk.placeHolder "x",
      Chunk.optional "y" [Chunk.placeHolder "y"]], 33⟩).word = "foo" ∧
    (formatResult kindsMap ⟨[Chunk.typedText "foo", Chunk.placeHolder "x",
      Chunk.optional "y" [Chunk.placeHolder "y"]], 33⟩).abbr = "foo" ∧
    strContains (formatResult kindsMap ⟨[Chunk.typedText "foo", Chunk.placeHolder "x",
      Chunk.optional "y" [Chunk.placeHolder "y"]], 33⟩).info "x" = true ∧
    strContains (formatResult kindsMap ⟨[Chunk.typedText "foo", Chunk.placeHolder "x",
      Chunk.optional "y" [Chunk.placeHolder "y"]], 33⟩).info "y=?" = true := by
  have habbr : ∀ s : String,
      r.string.filter Chunk.isKindTypedText = [Chunk.typedText s] →
      (formatResult kindsMap r).abbr = s := by
    intro s h
    show (r.string.foldl formatStep ⟨none, "", "", ""⟩).abbr = s
    rw [foldl_formatStep_abbr, h]
    rfl
  have hinfo : (formatResult kindsMap ⟨[Chunk.typedText "foo", Chunk.placeHolder "x",
      Chunk.optional "y" [Chunk.placeHolder "y"]], 33⟩).info =
      "foox" ++ String.join ((rollOutOptional [Chunk.placeHolder "y"]).map
        (fun a => a ++ "=?")) ++ "y" := rfl
  refine ⟨rfl, rfl, fun s h => ⟨habbr s h, habbr s h⟩, rfl, rfl, ?_, ?_⟩
  · rw [hinfo, rollOutOptional_single_placeholder]
    decide
  · rw [hinfo, rollOutOptional_single_placeholder]
    decide

/-- Witness for C6 on a result whose single typed-text chunk spells
"foo". -/
theorem formatResult_record_witness :
    (formatResult (fun _ => "t")
      ⟨[Chunk.typedText "foo", Chunk.placeHolder "x"], 0⟩).abbr = "foo" ∧
    (formatResult (fun _ => "t")
      ⟨[Chunk.typedText "foo", Chunk.placeHolder "x"], 0⟩).word = "foo" :=
  (formatResult_record (fun _ => "t")
    ⟨[Chunk.typedText "foo", Chunk.placeHolder "x"], 0⟩).2.2.1 "foo" rfl

/-- C10: a raw result with no typed-text chunk still formats, and its
`word` and `abbr` fields are both the empty string. -/
theorem formatResult_no_typedtext (kindsMap : Nat → String) (r : RawResult)
    (h : r.string.filter Chunk.isKindTypedText = []) :
    (formatResult kindsMap r).word = "" ∧ (formatResult kindsMap r).abbr = "" := by
  have habbr : (r.string.foldl formatStep ⟨none, "", "", ""⟩).abbr = "" := by
    rw [foldl_formatStep_abbr, h]
    rfl
  exact ⟨habbr, habbr⟩

/-- Witness for C10 on a result made of a single placeholder chunk. -/
theorem formatResult_no_typedtext_witness :
    (formatResult (fun _ => "t") ⟨[Chunk.placeHolder "x"], 0⟩).word = "" ∧
    (formatResult (fun _ => "t") ⟨[Chunk.placeHolder "x"], 0⟩).abbr = "" :=
  formatResult_no_typedtext (fun _ => "t") ⟨[Chunk.placeHolder "x"], 0⟩ rfl

/-- C7 counterexample: the claim reads "each nested sub-chunk contributes
its spelling" to the running optional word, but the roll-out skips
informative (as well as result-type and typed-text) sub-chunks: for the
nested sequence [informative "i", placeholder "y"] the accumulated word
is "y", not "iy", and the info text gains "y=?", not "iy=?". -/
theorem rollOutOptional_skips_informative :
    rollOutOptional [Chunk.informative "i", Chunk.placeHolder "y"] = ["y"] ∧
    (["y"] : List String) ≠ ["iy"] ∧
    (formatStep ⟨none, "", "", ""⟩
      (Chunk.optional "" [Chunk.informative "i", Chunk.placeHolder "y"])).info =
      "y=?" := by
  have h1 : rollOutOptional [Chunk.informative "i", Chunk.placeHolder "y"] = ["y"] := by
    rw [rollOutOptional_eq, rollOutAux_spec]
    rfl
  refine ⟨h1, by decide, ?_⟩
  have h2 : (formatStep ⟨none, "", "", ""⟩
      (Chunk.optional "" [Chunk.informative "i", Chunk.placeHolder "y"])).info =
      "" ++ String.join ((rollOutOptional
        [Chunk.informative "i", Chunk.placeHolder "y"]).map (fun a => a ++ "=?")) ++ "" :=
    rfl
  rw [h2, h1]
  decide

/-- C7 (amended): rolling out an optional chunk's nested sequence builds a
running word to which each nested sub-chunk other than informative,
result-type and typed-text chunks contributes its spelling, recursing
depth-first into nested optional chunks (whose accumulated strings follow
in order); and in the main loop each accumulated string is appended to the
info text followed by "=?".  The recursion terminates for every (finite,
acyclic) chunk tree: `rollOutOptional` is total by structural descent. -/
theorem rollOutOptional_flattening :
    (∀ chunks : List Chunk,
      rollOutOptional chunks =
        (chunks.filter keepInRollOut).foldl (fun w c => w ++ c.spelling) ""
          :: ((chunks.filter Chunk.isKindOptional).map
            (fun c => rollOutOptional c.optChildren)).flatten) ∧
    (∀ (st : FormatState) (s : String) (children : List Chunk),
      formatStep st (Chunk.optional s children) =
        { st with
          word := st.word ++ s,
          info := st.info ++ String.join ((rollOutOptional children).map
            (fun a => a ++ "=?")) ++ s }) := by
  constructor
  · intro chunks
    rw [rollOutOptional_eq, rollOutAux_spec]
    simp
  · intro st s children
    rfl

/-- An absolute path's character list starts with a slash. -/
theorem isabs_head (p : String) (h : isabs p = true) : ∃ t, p.data = '/' :: t := by
  unfold isabs at h
  split at h
  · next c t heq => exact ⟨t, by rw [heq, of_decide_eq_true h]⟩
  · cases h

/-- The rewritten `-I` token's character list starts with `-I`. -/
theorem rewriteInclude_data (cwd arg : String) :
    (rewriteInclude cwd arg).data =
      '-' :: 'I' :: (if isabs (strDrop arg 2) then strDrop arg 2
        else normpath (pjoin cwd (strDrop arg 2))).data := by
  unfold rewriteInclude
  rw [String.data_append]
  rfl

/-- A rewritten `-I` token is never the literal `-c`. -/
theorem rewriteInclude_ne_dashc (cwd arg : String) : rewriteInclude cwd arg ≠ "-c" := by
  intro h
  have h2 := congrArg String.data h
  rw [rewriteInclude_data] at h2
  simp at h2

/-- A rewritten `-I` token is never the literal `-o`. -/
theorem rewriteInclude_ne_dasho (cwd arg : String) : rewriteInclude cwd arg ≠ "-o" := by
  intro h
  have h2 := congrArg String.data h
  rw [rewriteInclude_data] at h2
  simp at h2

/-- Python slicing undoes prepending `-I`. -/
theorem strDrop_two_dashI (p : String) : strDrop ("-I" ++ p) 2 = p := by
  obtain ⟨d⟩ := p
  rfl

/-- One unfolding step of the disarmed filter. -/
theorem filterArgsAux_cons (fn cwd arg : String) (rest : List String) :
    filterArgsAux fn cwd false (arg :: rest) =
      if arg = "-c" then filterArgsAux fn cwd false rest
      else if arg = fn ∨ realpath (pjoin cwd arg) = fn then
        filterArgsAux fn cwd false rest
      else if arg = "-o" then filterArgsAux fn cwd true rest
      else if startsWithStr arg "-I" then
        rewriteInclude cwd arg :: filterArgsAux fn cwd false rest
      else arg :: filterArgsAux fn cwd false rest := rfl

/-- With `skip_next` armed the filter drops the next token
unconditionally and continues disarmed. -/
theorem filterArgsAux_skip (fn cwd : String) (l : List String) :
    filterArgsAux fn cwd true l = filterArgsAux fn cwd false l.tail := by
  cases l <;> rfl

/-- Provenance of every token the filter emits: it comes from a raw token
(past the skipped prefix) that is not `-c`, not `-o`, not the target file
and does not resolve to the target file, and it is that token itself —
rewritten when it is a `-I` token. -/
theorem mem_filterArgsAux (fn cwd : String) :
    ∀ (l : List String) (sk : Bool) (a : String), a ∈ filterArgsAux fn cwd sk l →
      ∃ arg ∈ (if sk then l.tail else l), arg ≠ "-c" ∧ arg ≠ "-o" ∧ arg ≠ fn ∧
        realpath (pjoin cwd arg) ≠ fn ∧
        a = if startsWithStr arg "-I" then rewriteInclude cwd arg else arg := by
  intro l
  induction l with
  | nil =>
    intro sk a h
    cases sk <;> simp [filterArgsAux] at h
  | cons x rest ih =>
    intro sk a h
    cases sk with
    | true =>
      simp only [filterArgsAux] at h
      obtain ⟨arg, hmem, hp⟩ := ih false a h
      exact ⟨arg, hmem, hp⟩
    | false =>
      simp only [filterArgsAux] at h
      by_cases h1 : x = "-c"
      · rw [if_pos h1] at h
        obtain ⟨arg, hmem, hp⟩ := ih false a h
        exact ⟨arg, List.mem_cons_of_mem x hmem, hp⟩
      · rw [if_neg h1] at h
        by_cases h2 : x = fn ∨ realpath (pjoin cwd x) = fn
        · rw [if_pos h2] at h
          obtain ⟨arg, hmem, hp⟩ := ih false a h
          exact ⟨arg, List.mem_cons_of_mem x hmem, hp⟩
        · rw [if_neg h2] at h
          push_neg at h2
          by_cases h3 : x = "-o"
          · rw [if_pos h3] at h
            obtain ⟨arg, hmem, hp⟩ := ih true a h
            have hmem2 : arg ∈ rest := by
              cases rest with
              | nil => simp at hmem
              | cons y ys => exact List.mem_cons_of_mem y hmem
            exact ⟨arg, List.mem_cons_of_mem x hmem2, hp⟩
          · rw [if_neg h3] at h
            by_cases h4 : startsWithStr x "-I"
            · rw [if_pos h4] at h
              rcases List.mem_cons.mp h with heq | h5
              · refine ⟨x, List.mem_cons_self x rest, h1, h3, h2.1, h2.2, ?_⟩
                rw [if_pos h4]
                exact heq
              · obtain ⟨arg, hmem, hp⟩ := ih false a h5
                exact ⟨arg, List.mem_cons_of_mem x hmem, hp⟩
            · rw [if_neg h4] at h
              rcases List.mem_cons.mp h with heq | h5
              · refine ⟨x, List.mem_cons_self x rest, h1, h3, h2.1, h2.2, ?_⟩
                rw [if_neg h4]
                exact heq
              · obtain ⟨arg, hmem, hp⟩ := ih false a h5
                exact ⟨arg, List.mem_cons_of_mem x hmem, hp⟩

/-- C1: for a compilation-database entry (target file path absolute, as
database queries are), the resolved argument list is the filtered raw
command, where: the first raw token (the compiler invocation) is dropped;
a processed `-o` drops itself and the following token; every emitted
token stems from a raw token past the compiler invocation that is not
`-c`, not `-o`, not the target file path and does not resolve to it
relative to the working directory, `-I` tokens being rewritten; hence the
output never contains `-c`, `-o` or the target file path; a relative
`-I<path>` is rewritten to `-I` plus the path made absolute against the
working directory; and the entry
`{args: [cc, -c, -o, a.o, -Irel/inc, main.c], cwd: /proj}` for file
`/proj/main.c` resolves to exactly `[-I/proj/rel/inc]`. -/
theorem getCompilationDBParams_entry_filtering
    (db : String → Option (List String × String)) (lastQuery : CompileParams)
    (fileName cwd : String) (raw : List String)
    (hdb : db fileName = some (raw, cwd)) (habs : isabs fileName = true) :
    (getCompilationDBParams db lastQuery fileName).1.args =
      filterDBArgs fileName cwd raw ∧
    (∀ (c0 : String) (rest : List String), raw = c0 :: rest →
      filterDBArgs fileName cwd raw = filterArgsAux fileName cwd false rest) ∧
    (realpath (pjoin cwd "-o") ≠ fileName →
      ∀ (x : String) (rest : List String),
        filterArgsAux fileName cwd false ("-o" :: x :: rest) =
          filterArgsAux fileName cwd false rest) ∧
    (∀ a ∈ filterDBArgs fileName cwd raw, ∃ arg ∈ raw.tail,
      arg ≠ "-c" ∧ arg ≠ "-o" ∧ arg ≠ fileName ∧
      realpath (pjoin cwd arg) ≠ fileName ∧
      a = if startsWithStr arg "-I" then rewriteInclude cwd arg else arg) ∧
    "-c" ∉ filterDBArgs fileName cwd raw ∧
    "-o" ∉ filterDBArgs fileName cwd raw ∧
    fileName ∉ filterDBArgs fileName cwd raw ∧
    (∀ p : String, isabs p = false →
      rewriteInclude cwd ("-I" ++ p) = "-I" ++ normpath (pjoin cwd p)) ∧
    (getCompilationDBParams
        (fun f => if f = "/proj/main.c" then
          some (["cc", "-c", "-o", "a.o", "-Irel/inc", "main.c"], "/proj") else none)
        initialLastQuery "/proj/main.c").1 =
      ⟨["-I/proj/rel/inc"], some "/proj"⟩ := by
  obtain ⟨t0, hfn⟩ := isabs_head fileName habs
  have hfn_ne_dasho : "-o" ≠ fileName := by
    intro h
    rw [show fileName = "-o" from h.symm] at hfn
    cases hfn
  refine ⟨by simp [getCompilationDBParams, hdb], ?_, ?_, ?_, ?_, ?_, ?_, ?_, by decide⟩
  · intro c0 rest hraw
    subst hraw
    rfl
  · intro hno x rest
    rw [filterArgsAux_cons,
      if_neg (show ¬("-o" : String) = "-c" by decide),
      if_neg (by rintro (h | h); exacts [hfn_ne_dasho h, hno h]), if_pos rfl,
      filterArgsAux_skip]
    rfl
  · intro a ha
    exact mem_filterArgsAux fileName cwd raw true a ha
  · intro hc
    obtain ⟨arg, hmem, hne_c, hne_o, hne_f, hne_r, heq⟩ :=
      mem_filterArgsAux fileName cwd raw true "-c" hc
    by_cases h4 : startsWithStr arg "-I"
    · rw [if_pos h4] at heq
      exact rewriteInclude_ne_dashc cwd arg heq.symm
    · rw [if_neg h4] at heq
      exact hne_c heq.symm
  · intro ho
    obtain ⟨arg, hmem, hne_c, hne_o, hne_f, hne_r, heq⟩ :=
      mem_filterArgsAux fileName cwd raw true "-o" ho
    by_cases h4 : startsWithStr arg "-I"
    · rw [if_pos h4] at heq
      exact rewriteInclude_ne_dasho cwd arg heq.symm
    · rw [if_neg h4] at heq
      exact hne_o heq.symm
  · intro hf
    obtain ⟨arg, hmem, hne_c, hne_o, hne_f, hne_r, heq⟩ :=
      mem_filterArgsAux fileName cwd raw true fileName hf
    by_cases h4 : startsWithStr arg "-I"
    · rw [if_pos h4] at heq
      have h2 := congrArg String.data heq
      rw [hfn, rewriteInclude_data] at h2
      simp at h2
    · rw [if_neg h4] at heq
      exact hne_f heq.symm
  · intro p hp
    simp [rewriteInclude, strDrop_two_dashI, hp]

/-- Witness for C1 at the end-to-end example entry. -/
theorem getCompilationDBParams_entry_filtering_witness :
    (getCompilationDBParams
        (fun f => if f = "/proj/main.c" then
          some (["cc", "-c", "-o", "a.o", "-Irel/inc", "main.c"], "/proj") else none)
        initialLastQuery "/proj/main.c").1.args =
      filterDBArgs "/proj/main.c" "/proj"
        ["cc", "-c", "-o", "a.o", "-Irel/inc", "main.c"] ∧
    "-c" ∉ filterDBArgs "/proj/main.c" "/proj"
      ["cc", "-c", "-o", "a.o", "-Irel/inc", "main.c"] :=
  ⟨(getCompilationDBParams_entry_filtering
      (fun f => if f = "/proj/main.c" then
        some (["cc", "-c", "-o", "a.o", "-Irel/inc", "main.c"], "/proj") else none)
      initialLastQuery "/proj/main.c" "/proj"
      ["cc", "-c", "-o", "a.o", "-Irel/inc", "main.c"] (by decide) rfl).1,
   (getCompilationDBParams_entry_filtering
      (fun f => if f = "/proj/main.c" then
        some (["cc", "-c", "-o", "a.o", "-Irel/inc", "main.c"], "/proj") else none)
      initialLastQuery "/proj/main.c" "/proj"
      ["cc", "-c", "-o", "a.o", "-Irel/inc", "main.c"] (by decide) rfl).2.2.2.2.1⟩

end ClangComplete
